import Mathlib

/-!
# Verification of the NigeriaTaxCalculator RAG backend

Shallow embedding of the core pipeline of the repository:

* `splitIntoChunks` — the ingestion chunker (`setupDocuments.js`, `splitIntoChunks`),
  modelled over `List Char` (JS strings); whitespace is modelled as the ASCII
  set space/tab/newline/carriage-return (the core of the JS `\s` class).
* `cosineSimilarity`, `findRelevantChunks` — the exhaustive retriever of
  `chatController.js`.  JS floating-point numbers in the similarity path are
  modelled exactly: a similarity is either `JsVal.nan` (the JS `NaN` produced
  by `0/0` when a magnitude is zero, or by an out-of-range `vecB[i]`) or
  `JsVal.fin n d`, denoting the real number `n / √d` with `n d : ℚ`
  (`d` is the square of the product of magnitudes, kept unrooted so that all
  comparisons stay exact and decidable).
* `jsSortStable` — model of `Array.prototype.sort` with the comparator
  `(a, b) => b.similarity - a.similarity`: a stable insertion sort in
  which a `NaN` comparator result is treated as a tie (per the ECMAScript
  `SortCompare` step coercing a `NaN` comparator value to `+0`), matching the
  stable sorts of mainstream engines.
* the chat request handlers of both controller variants (`chatV1` for the
  in-process cosine scan, `chatV2` for the `$vectorSearch` variant), as pure
  functions of the request message and of the outcomes of the external
  embedding / store / generation calls, returning the HTTP response together
  with which external stages were invoked.
* the ingestion batch job (`processPDF`, `ingestDocs`, `runIngestion`).

Recursions over shrinking-but-not-structurally-smaller lists are written with
an explicit fuel argument (initialised to the list length) so that every
definition reduces inside the kernel; fuel-invariance lemmas below recover
the natural unfolding equations.
-/

/-! ## Characters, words, chunking (setupDocuments.js) -/

/-- Whitespace test: the ASCII core of the JS regex class `\s`. -/
def isWsChar (c : Char) : Bool := c == ' ' || c == '\t' || c == '\n' || c == '\r'

/-- Fuelled worker for `wordsOf`. -/
def wordsOfFuel : Nat → List Char → List (List Char)
  | _, [] => []
  | 0, _ :: _ => []
  | fuel + 1, c :: cs =>
    if isWsChar c then wordsOfFuel fuel cs
    else (c :: cs.takeWhile (fun x => !isWsChar x)) ::
      wordsOfFuel fuel (cs.dropWhile (fun x => !isWsChar x))

/-- Maximal non-whitespace runs of a character list: the model of
`text.split(/\s+/).filter((word) => word.trim().length > 0)`. -/
def wordsOf (l : List Char) : List (List Char) := wordsOfFuel l.length l

theorem length_dropWhile_le' (p : Char → Bool) (l : List Char) :
    (l.dropWhile p).length ≤ l.length := by
  induction l with
  | nil => simp [List.dropWhile]
  | cons c cs ih =>
    by_cases h : p c
    · simp only [List.dropWhile, h]
      exact Nat.le_succ_of_le ih
    · simp [List.dropWhile, h]

theorem wordsOfFuel_congr (n : Nat) :
    ∀ (f₁ f₂ : Nat) (l : List Char), l.length ≤ n → l.length ≤ f₁ → l.length ≤ f₂ →
      wordsOfFuel f₁ l = wordsOfFuel f₂ l := by
  induction n with
  | zero =>
    intro f₁ f₂ l hn _ _
    have : l = [] := List.length_eq_zero.mp (Nat.le_zero.mp hn)
    subst this
    cases f₁ <;> cases f₂ <;> rfl
  | succ n ih =>
    intro f₁ f₂ l hn h₁ h₂
    cases l with
    | nil => cases f₁ <;> cases f₂ <;> rfl
    | cons c cs =>
      cases f₁ with
      | zero => simp at h₁
      | succ g₁ =>
        cases f₂ with
        | zero => simp at h₂
        | succ g₂ =>
          simp only [List.length_cons, Nat.succ_le_succ_iff] at hn h₁ h₂
          by_cases hc : isWsChar c
          · simp only [wordsOfFuel, hc, if_true]
            exact ih g₁ g₂ cs hn h₁ h₂
          · simp only [wordsOfFuel, hc, Bool.false_eq_true, if_false]
            have hd : (cs.dropWhile (fun x => !isWsChar x)).length ≤ cs.length :=
              length_dropWhile_le' _ cs
            rw [ih g₁ g₂ _ (le_trans hd hn) (le_trans hd h₁) (le_trans hd h₂)]

theorem wordsOfFuel_eq (fuel : Nat) (l : List Char) (h : l.length ≤ fuel) :
    wordsOfFuel fuel l = wordsOf l :=
  wordsOfFuel_congr l.length fuel l.length l (le_refl _) h (le_refl _)

/-- The natural unfolding equation of `wordsOf` on a cons cell. -/
theorem wordsOf_cons (c : Char) (cs : List Char) :
    wordsOf (c :: cs) =
      if isWsChar c then wordsOf cs
      else (c :: cs.takeWhile (fun x => !isWsChar x)) ::
        wordsOf (cs.dropWhile (fun x => !isWsChar x)) := by
  by_cases hc : isWsChar c
  · simp [wordsOf, wordsOfFuel, hc]
  · have h1 : wordsOf (c :: cs) =
        (c :: cs.takeWhile (fun x => !isWsChar x)) ::
          wordsOfFuel cs.length (cs.dropWhile (fun x => !isWsChar x)) := by
      simp [wordsOf, wordsOfFuel, hc]
    rw [h1, wordsOfFuel_eq _ _ (length_dropWhile_le' _ cs)]
    simp [hc]

@[simp] theorem wordsOf_nil : wordsOf [] = [] := rfl

/-- Fuelled worker for `chunkGroups`. -/
def chunkGroupsFuel (size : ℕ+) : Nat → List (List Char) → List (List (List Char))
  | _, [] => []
  | 0, _ :: _ => []
  | fuel + 1, w :: ws => ((w :: ws).take size) :: chunkGroupsFuel size fuel ((w :: ws).drop size)

/-- Consecutive groups of `size` words: the `for (i += chunkSize)` loop of
`splitIntoChunks`.  The strictly positive `size` mirrors the claimed
"positive chunk sizes" (the JS loop would not terminate on `0`). -/
def chunkGroups (size : ℕ+) (ws : List (List Char)) : List (List (List Char)) :=
  chunkGroupsFuel size ws.length ws

theorem chunkGroupsFuel_congr (size : ℕ+) (n : Nat) :
    ∀ (f₁ f₂ : Nat) (l : List (List Char)), l.length ≤ n → l.length ≤ f₁ → l.length ≤ f₂ →
      chunkGroupsFuel size f₁ l = chunkGroupsFuel size f₂ l := by
  induction n with
  | zero =>
    intro f₁ f₂ l hn _ _
    have : l = [] := List.length_eq_zero.mp (Nat.le_zero.mp hn)
    subst this
    cases f₁ <;> cases f₂ <;> rfl
  | succ n ih =>
    intro f₁ f₂ l hn h₁ h₂
    cases l with
    | nil => cases f₁ <;> cases f₂ <;> rfl
    | cons w ws =>
      cases f₁ with
      | zero => simp at h₁
      | succ g₁ =>
        cases f₂ with
        | zero => simp at h₂
        | succ g₂ =>
          simp only [List.length_cons, Nat.succ_le_succ_iff] at hn h₁ h₂
          have hd : ((w :: ws).drop (size : ℕ)).length ≤ ws.length := by
            simp only [List.length_drop, List.length_cons]
            have := size.pos
            omega
          show ((w :: ws).take size) :: chunkGroupsFuel size g₁ ((w :: ws).drop size) =
            ((w :: ws).take size) :: chunkGroupsFuel size g₂ ((w :: ws).drop size)
          rw [ih g₁ g₂ _ (le_trans hd hn) (le_trans hd h₁) (le_trans hd h₂)]

theorem chunkGroupsFuel_eq (size : ℕ+) (fuel : Nat) (l : List (List Char))
    (h : l.length ≤ fuel) : chunkGroupsFuel size fuel l = chunkGroups size l :=
  chunkGroupsFuel_congr size l.length fuel l.length l (le_refl _) h (le_refl _)

/-- The natural unfolding equation of `chunkGroups` on a cons cell. -/
theorem chunkGroups_cons (size : ℕ+) (w : List Char) (ws : List (List Char)) :
    chunkGroups size (w :: ws) =
      ((w :: ws).take size) :: chunkGroups size ((w :: ws).drop size) := by
  have h2 : chunkGroups size (w :: ws) =
      ((w :: ws).take size) :: chunkGroupsFuel size ws.length ((w :: ws).drop size) := rfl
  rw [h2]
  congr 1
  apply chunkGroupsFuel_eq
  simp only [List.length_drop, List.length_cons]
  have := size.pos
  omega

@[simp] theorem chunkGroups_nil (size : ℕ+) : chunkGroups size [] = [] := rfl

/-- Join a list of words with single spaces (`array.join(" ")`). -/
def joinWords : List (List Char) → List Char
  | [] => []
  | [w] => w
  | w :: ws => w ++ ' ' :: joinWords ws

/-- Strip leading and trailing whitespace (model of `String.prototype.trim`). -/
def trimChars (l : List Char) : List Char :=
  ((l.dropWhile isWsChar).reverse.dropWhile isWsChar).reverse

/-- Model of `splitIntoChunks(text, chunkSize)` from `setupDocuments.js`:
split into words, group into `size`-word windows, join each window with
single spaces, keep only windows whose joined text is non-blank. -/
def splitIntoChunks (text : List Char) (size : ℕ+) : List (List Char) :=
  ((chunkGroups size (wordsOf text)).map joinWords).filter
    (fun chunk => (trimChars chunk).length > 0)

example : splitIntoChunks ("  a b  c ".toList) ⟨2, by decide⟩ =
    ["a b".toList, "c".toList] := by decide

/-! ## JS numbers in the similarity path (chatController.js) -/

/-- Exact model of the JS numbers that flow through the similarity pipeline:
`nan` is the JS `NaN`; `fin n d` denotes the real number `n / √d` (`d > 0` in
every value the pipeline produces — `d` is the squared product of the two
vector magnitudes, kept unrooted so comparisons stay rational). -/
inductive JsVal where
  | nan : JsVal
  | fin : ℚ → ℚ → JsVal
deriving DecidableEq, Repr

/-- Sign of a rational: `1`, `-1` or `0`. -/
def qsign (q : ℚ) : ℤ := if 0 < q then 1 else if q < 0 then -1 else 0

/-- Sign of the real number `n₁/√d₁ - n₂/√d₂` (for `d₁, d₂ > 0`), computed by
rational arithmetic only: compare signs first, then cross-multiplied squares. -/
def finSubSign (n₁ d₁ n₂ d₂ : ℚ) : ℤ :=
  if n₁ < 0 ∧ 0 ≤ n₂ then -1
  else if n₂ < 0 ∧ 0 ≤ n₁ then 1
  else if 0 ≤ n₁ then qsign (n₁ ^ 2 * d₂ - n₂ ^ 2 * d₁)
  else qsign (n₂ ^ 2 * d₁ - n₁ ^ 2 * d₂)

/-- Result of the JS sort comparator `(a, b) => b.similarity - a.similarity`:
the sign of the subtraction, or `none` when the subtraction is `NaN`. -/
def comparatorSign : JsVal → JsVal → Option ℤ
  | JsVal.nan, _ => none
  | JsVal.fin _ _, JsVal.nan => none
  | JsVal.fin na da, JsVal.fin nb db => some (finSubSign nb db na da)

/-- A chunk scored against the query (`content`, `source`, `similarity`),
the shape produced by `findRelevantChunks` in the exhaustive controller. -/
structure ScoredChunk where
  content : String
  source : String
  similarity : JsVal
deriving DecidableEq, Repr

/-- Whether the comparator orders `a` strictly before `b`
(`comparator(a, b) < 0`; a `NaN` comparator value acts as a tie). -/
def scoredLtB (a b : ScoredChunk) : Bool :=
  match comparatorSign a.similarity b.similarity with
  | some s => decide (s < 0)
  | none => false

/-- Stable insertion of `x` (an element appearing later in the original
array) into an already-sorted prefix: `x` passes over `y` unless the
comparator places `x` strictly before `y`. -/
def insertCmp (lt : α → α → Bool) (x : α) : List α → List α
  | [] => [x]
  | y :: ys => if lt x y then x :: y :: ys else y :: insertCmp lt x ys

/-- Model of `Array.prototype.sort(comparator)`: a stable comparison sort in
which a `NaN` comparator result is treated as equality. -/
def jsSortStable (lt : α → α → Bool) (l : List α) : List α :=
  l.foldl (fun acc x => insertCmp lt x acc) []

/-! ## Cosine similarity and exhaustive retrieval -/

/-- `vecA.reduce((sum, a, i) => sum + a * vecB[i], 0)` when `vecB` is at
least as long as `vecA` (the shorter-`vecB` case yields `NaN` in JS and is
handled in `cosineSimilarity`). -/
def dotProduct (a b : List ℚ) : ℚ := (List.zipWith (fun x y => x * y) a b).sum

/-- Sum of squares of a vector, i.e. the square of its JS magnitude
(`Math.sqrt(vec.reduce((sum, a) => sum + a * a, 0))` before the root). -/
def sumSq (v : List ℚ) : ℚ := (v.map (fun x => x * x)).sum

/-- A record of the persisted `DocumentChunk` collection as the exhaustive
retriever reads it (`content`, `source`, `embedding`). -/
structure StoredChunk where
  content : String
  source : String
  embedding : List ℚ
deriving DecidableEq, Repr

/-- Model of `cosineSimilarity(vecA, vecB)`:
`dot / (‖A‖ * ‖B‖)` as the exact real `dot / √(sumSq A * sumSq B)`.
The result is JS `NaN` exactly when (a) `vecB` is shorter than `vecA`
(`vecB[i]` is `undefined`, poisoning the dot product), or (b) either
magnitude is zero (the division is then `0/0`, since a vector with zero sum
of squares has all components zero and hence zero dot product). -/
def cosineSimilarity (vecA vecB : List ℚ) : JsVal :=
  if vecB.length < vecA.length then JsVal.nan
  else if sumSq vecA = 0 ∨ sumSq vecB = 0 then JsVal.nan
  else JsVal.fin (dotProduct vecA vecB) (sumSq vecA * sumSq vecB)

/-- Scoring step of `findRelevantChunks`: keep content and source, attach the
cosine similarity against the query embedding. -/
def scoreChunk (queryEmbedding : List ℚ) (c : StoredChunk) : ScoredChunk :=
  ⟨c.content, c.source, cosineSimilarity queryEmbedding c.embedding⟩

/-- Model of the exhaustive `findRelevantChunks(queryEmbedding, topK)`: score
every stored chunk, sort by the comparator
`(a, b) => b.similarity - a.similarity`, take the first `topK`. -/
def findRelevantChunks (queryEmbedding : List ℚ) (topK : Nat)
    (store : List StoredChunk) : List ScoredChunk :=
  ((jsSortStable scoredLtB (store.map (scoreChunk queryEmbedding)))).take topK

example : cosineSimilarity [1, 0] [1, 0] = JsVal.fin 1 1 := by with_unfolding_all decide
example : cosineSimilarity [1, 0] [0, 0] = JsVal.nan := by with_unfolding_all decide
example :
    findRelevantChunks [1, 0] 5
      [⟨"z", "z.pdf", [0, 0]⟩, ⟨"o", "o.pdf", [3, 4]⟩] =
    [⟨"z", "z.pdf", JsVal.nan⟩, ⟨"o", "o.pdf", JsVal.fin 3 25⟩] := by with_unfolding_all decide

/-! ## Real-number semantics of `JsVal` -/

/-- The real number denoted by a similarity value (`nan` is given the junk
value `0`; every lemma using `toReal` carries a validity hypothesis). -/
noncomputable def JsVal.toReal : JsVal → ℝ
  | JsVal.nan => 0
  | JsVal.fin n d => (n : ℝ) / Real.sqrt (d : ℝ)

/-- A `JsVal` is valid when it is a finite value with positive squared
denominator — the only finite shape `cosineSimilarity` produces. -/
def JsVal.IsValid : JsVal → Prop
  | JsVal.nan => False
  | JsVal.fin _ d => 0 < d

instance : DecidablePred JsVal.IsValid := fun v => by
  cases v with
  | nan => exact isFalse (fun h => h)
  | fin n d => exact inferInstanceAs (Decidable (0 < d))

theorem qsign_pos_iff (q : ℚ) : 0 < qsign q ↔ 0 < q := by
  unfold qsign
  split_ifs with h1 h2
  · simpa using h1
  · constructor
    · intro h; omega
    · intro h; exact absurd h (not_lt.mpr (le_of_lt h2))
  · constructor
    · intro h; omega
    · intro h; exact absurd h h1

theorem qsign_neg_iff (q : ℚ) : qsign q < 0 ↔ q < 0 := by
  unfold qsign
  split_ifs with h1 h2
  · constructor
    · intro h; omega
    · intro h; exact absurd h1 (not_lt.mpr (le_of_lt h))
  · simpa using h2
  · constructor
    · intro h; omega
    · intro h; exact absurd h h2

theorem qsign_neg (q : ℚ) : qsign (-q) = - qsign q := by
  unfold qsign
  split_ifs <;> first | rfl | omega | (exfalso; linarith)

theorem finSubSign_pos_iff (n₁ d₁ n₂ d₂ : ℚ) (hd₁ : 0 < d₁) (hd₂ : 0 < d₂) :
    0 < finSubSign n₁ d₁ n₂ d₂ ↔
      (n₂ : ℝ) / Real.sqrt (d₂ : ℝ) < (n₁ : ℝ) / Real.sqrt (d₁ : ℝ) := by
  have hs₁ : (0 : ℝ) < Real.sqrt (d₁ : ℝ) := Real.sqrt_pos.mpr (by exact_mod_cast hd₁)
  have hs₂ : (0 : ℝ) < Real.sqrt (d₂ : ℝ) := Real.sqrt_pos.mpr (by exact_mod_cast hd₂)
  have hdiv : ((n₂ : ℝ) / Real.sqrt (d₂ : ℝ) < (n₁ : ℝ) / Real.sqrt (d₁ : ℝ)) ↔
      (n₂ : ℝ) * Real.sqrt (d₁ : ℝ) < (n₁ : ℝ) * Real.sqrt (d₂ : ℝ) :=
    div_lt_div_iff₀ hs₂ hs₁
  unfold finSubSign
  split_ifs with hA hB hC
  · -- `n₁ < 0 ≤ n₂`: sign is `-1`, and the real inequality fails.
    have hv₁ : (n₁ : ℝ) / Real.sqrt (d₁ : ℝ) < 0 :=
      div_neg_of_neg_of_pos (by exact_mod_cast hA.1) hs₁
    have hv₂ : (0 : ℝ) ≤ (n₂ : ℝ) / Real.sqrt (d₂ : ℝ) :=
      div_nonneg (by exact_mod_cast hA.2) (le_of_lt hs₂)
    constructor
    · intro h; omega
    · intro h; exact absurd (lt_trans (lt_of_le_of_lt hv₂ h) hv₁) (lt_irrefl _)
  · -- `n₂ < 0 ≤ n₁`: sign is `1`, and the real inequality holds.
    have hv₂ : (n₂ : ℝ) / Real.sqrt (d₂ : ℝ) < 0 :=
      div_neg_of_neg_of_pos (by exact_mod_cast hB.1) hs₂
    have hv₁ : (0 : ℝ) ≤ (n₁ : ℝ) / Real.sqrt (d₁ : ℝ) :=
      div_nonneg (by exact_mod_cast hB.2) (le_of_lt hs₁)
    exact iff_of_true Int.zero_lt_one (lt_of_lt_of_le hv₂ hv₁)
  · -- both numerators nonnegative: compare cross-multiplied squares.
    have hn₁ : (0 : ℝ) ≤ (n₁ : ℝ) := by exact_mod_cast hC
    have hn₂ : (0 : ℚ) ≤ n₂ := by
      by_contra hneg
      exact hB ⟨lt_of_not_le hneg, hC⟩
    have hn₂' : (0 : ℝ) ≤ (n₂ : ℝ) := by exact_mod_cast hn₂
    rw [qsign_pos_iff, sub_pos, hdiv]
    have hsq : ((n₂ : ℝ) * Real.sqrt (d₁ : ℝ) < (n₁ : ℝ) * Real.sqrt (d₂ : ℝ)) ↔
        ((n₂ : ℝ) * Real.sqrt (d₁ : ℝ)) ^ 2 < ((n₁ : ℝ) * Real.sqrt (d₂ : ℝ)) ^ 2 :=
      (pow_lt_pow_iff_left₀ (mul_nonneg hn₂' (le_of_lt hs₁))
        (mul_nonneg hn₁ (le_of_lt hs₂)) two_ne_zero).symm
    have e₁ : ((n₂ : ℝ) * Real.sqrt (d₁ : ℝ)) ^ 2 = (n₂ : ℝ) ^ 2 * (d₁ : ℝ) := by
      rw [mul_pow, Real.sq_sqrt (by exact_mod_cast (le_of_lt hd₁))]
    have e₂ : ((n₁ : ℝ) * Real.sqrt (d₂ : ℝ)) ^ 2 = (n₁ : ℝ) ^ 2 * (d₂ : ℝ) := by
      rw [mul_pow, Real.sq_sqrt (by exact_mod_cast (le_of_lt hd₂))]
    rw [hsq, e₁, e₂]
    constructor
    · intro h; exact_mod_cast h
    · intro h; exact_mod_cast h
  · -- both numerators negative: compare negated values.
    have hn₁ : n₁ < 0 := lt_of_not_le hC
    have hn₂ : n₂ < 0 := by
      by_contra hpos
      exact hA ⟨hn₁, le_of_not_lt hpos⟩
    have hn₁' : (0 : ℝ) ≤ -(n₁ : ℝ) := by
      rw [neg_nonneg]; exact_mod_cast le_of_lt hn₁
    have hn₂' : (0 : ℝ) ≤ -(n₂ : ℝ) := by
      rw [neg_nonneg]; exact_mod_cast le_of_lt hn₂
    rw [qsign_pos_iff, sub_pos, hdiv]
    have hneg : ((n₂ : ℝ) * Real.sqrt (d₁ : ℝ) < (n₁ : ℝ) * Real.sqrt (d₂ : ℝ)) ↔
        (-(n₁ : ℝ)) * Real.sqrt (d₂ : ℝ) < (-(n₂ : ℝ)) * Real.sqrt (d₁ : ℝ) := by
      constructor <;> intro h <;> nlinarith
    have hsq : ((-(n₁ : ℝ)) * Real.sqrt (d₂ : ℝ) < (-(n₂ : ℝ)) * Real.sqrt (d₁ : ℝ)) ↔
        ((-(n₁ : ℝ)) * Real.sqrt (d₂ : ℝ)) ^ 2 < ((-(n₂ : ℝ)) * Real.sqrt (d₁ : ℝ)) ^ 2 :=
      (pow_lt_pow_iff_left₀ (mul_nonneg hn₁' (le_of_lt hs₂))
        (mul_nonneg hn₂' (le_of_lt hs₁)) two_ne_zero).symm
    have e₁ : ((-(n₁ : ℝ)) * Real.sqrt (d₂ : ℝ)) ^ 2 = (n₁ : ℝ) ^ 2 * (d₂ : ℝ) := by
      rw [mul_pow, neg_sq, Real.sq_sqrt (by exact_mod_cast (le_of_lt hd₂))]
    have e₂ : ((-(n₂ : ℝ)) * Real.sqrt (d₁ : ℝ)) ^ 2 = (n₂ : ℝ) ^ 2 * (d₁ : ℝ) := by
      rw [mul_pow, neg_sq, Real.sq_sqrt (by exact_mod_cast (le_of_lt hd₁))]
    rw [hneg, hsq, e₁, e₂]
    constructor
    · intro h; exact_mod_cast h
    · intro h; exact_mod_cast h

theorem qsign_eq_zero_iff (q : ℚ) : qsign q = 0 ↔ q = 0 := by
  unfold qsign
  split_ifs with h1 h2
  · constructor
    · intro h; exact absurd h one_ne_zero
    · intro h; exact absurd (h ▸ h1) (lt_irrefl 0)
  · constructor
    · intro h; exact absurd h (by decide)
    · intro h; exact absurd (h ▸ h2) (lt_irrefl 0)
  · exact iff_of_true rfl (le_antisymm (le_of_not_lt h1) (le_of_not_lt h2))

theorem sq_inj_nonneg (a b : ℝ) (ha : 0 ≤ a) (hb : 0 ≤ b) : a ^ 2 = b ^ 2 ↔ a = b := by
  constructor
  · intro h
    rcases lt_trichotomy a b with hlt | heq | hgt
    · exact absurd h (ne_of_lt ((pow_lt_pow_iff_left₀ ha hb two_ne_zero).mpr hlt))
    · exact heq
    · exact absurd h (ne_of_gt ((pow_lt_pow_iff_left₀ hb ha two_ne_zero).mpr hgt))
  · intro h
    rw [h]

theorem finSubSign_zero_iff (n₁ d₁ n₂ d₂ : ℚ) (hd₁ : 0 < d₁) (hd₂ : 0 < d₂) :
    finSubSign n₁ d₁ n₂ d₂ = 0 ↔
      (n₁ : ℝ) / Real.sqrt (d₁ : ℝ) = (n₂ : ℝ) / Real.sqrt (d₂ : ℝ) := by
  have hs₁ : (0 : ℝ) < Real.sqrt (d₁ : ℝ) := Real.sqrt_pos.mpr (by exact_mod_cast hd₁)
  have hs₂ : (0 : ℝ) < Real.sqrt (d₂ : ℝ) := Real.sqrt_pos.mpr (by exact_mod_cast hd₂)
  have hdiv : ((n₁ : ℝ) / Real.sqrt (d₁ : ℝ) = (n₂ : ℝ) / Real.sqrt (d₂ : ℝ)) ↔
      (n₁ : ℝ) * Real.sqrt (d₂ : ℝ) = (n₂ : ℝ) * Real.sqrt (d₁ : ℝ) :=
    div_eq_div_iff (ne_of_gt hs₁) (ne_of_gt hs₂)
  unfold finSubSign
  split_ifs with hA hB hC
  · -- `n₁ < 0 ≤ n₂`: sign is `-1`, and the values differ.
    have hv₁ : (n₁ : ℝ) / Real.sqrt (d₁ : ℝ) < 0 :=
      div_neg_of_neg_of_pos (by exact_mod_cast hA.1) hs₁
    have hv₂ : (0 : ℝ) ≤ (n₂ : ℝ) / Real.sqrt (d₂ : ℝ) :=
      div_nonneg (by exact_mod_cast hA.2) (le_of_lt hs₂)
    constructor
    · intro h; exact absurd h (by decide)
    · intro h; exact absurd (h ▸ hv₁) (not_lt.mpr (h ▸ hv₂))
  · -- `n₂ < 0 ≤ n₁`: sign is `1`, and the values differ.
    have hv₂ : (n₂ : ℝ) / Real.sqrt (d₂ : ℝ) < 0 :=
      div_neg_of_neg_of_pos (by exact_mod_cast hB.1) hs₂
    have hv₁ : (0 : ℝ) ≤ (n₁ : ℝ) / Real.sqrt (d₁ : ℝ) :=
      div_nonneg (by exact_mod_cast hB.2) (le_of_lt hs₁)
    constructor
    · intro h; exact absurd h one_ne_zero
    · intro h; exact absurd (h ▸ hv₂) (not_lt.mpr hv₁)
  · -- both numerators nonnegative.
    have hn₁ : (0 : ℝ) ≤ (n₁ : ℝ) := by exact_mod_cast hC
    have hn₂ : (0 : ℚ) ≤ n₂ := by
      by_contra hneg
      exact hB ⟨lt_of_not_le hneg, hC⟩
    have hn₂r : (0 : ℝ) ≤ (n₂ : ℝ) := by exact_mod_cast hn₂
    rw [qsign_eq_zero_iff, sub_eq_zero, hdiv]
    rw [← sq_inj_nonneg ((n₁ : ℝ) * Real.sqrt (d₂ : ℝ)) ((n₂ : ℝ) * Real.sqrt (d₁ : ℝ))
      (mul_nonneg hn₁ (le_of_lt hs₂)) (mul_nonneg hn₂r (le_of_lt hs₁))]
    rw [mul_pow, mul_pow, Real.sq_sqrt (by exact_mod_cast (le_of_lt hd₂)),
      Real.sq_sqrt (by exact_mod_cast (le_of_lt hd₁))]
    constructor
    · intro h; exact_mod_cast h
    · intro h; exact_mod_cast h
  · -- both numerators negative.
    have hn₁ : n₁ < 0 := lt_of_not_le hC
    have hn₂ : n₂ < 0 := by
      by_contra hpos
      exact hA ⟨hn₁, le_of_not_lt hpos⟩
    have hn₁r : (0 : ℝ) ≤ -(n₁ : ℝ) := by
      rw [neg_nonneg]; exact_mod_cast le_of_lt hn₁
    have hn₂r : (0 : ℝ) ≤ -(n₂ : ℝ) := by
      rw [neg_nonneg]; exact_mod_cast le_of_lt hn₂
    rw [qsign_eq_zero_iff, sub_eq_zero, hdiv]
    have hne : ((n₁ : ℝ) * Real.sqrt (d₂ : ℝ) = (n₂ : ℝ) * Real.sqrt (d₁ : ℝ)) ↔
        (-(n₁ : ℝ)) * Real.sqrt (d₂ : ℝ) = (-(n₂ : ℝ)) * Real.sqrt (d₁ : ℝ) := by
      constructor <;> intro h <;> nlinarith
    rw [hne,
      ← sq_inj_nonneg ((-(n₁ : ℝ)) * Real.sqrt (d₂ : ℝ)) ((-(n₂ : ℝ)) * Real.sqrt (d₁ : ℝ))
        (mul_nonneg hn₁r (le_of_lt hs₂)) (mul_nonneg hn₂r (le_of_lt hs₁))]
    rw [mul_pow, mul_pow, neg_sq, neg_sq,
      Real.sq_sqrt (by exact_mod_cast (le_of_lt hd₂)),
      Real.sq_sqrt (by exact_mod_cast (le_of_lt hd₁))]
    constructor
    · intro h; exact_mod_cast h.symm
    · intro h; exact_mod_cast h.symm

theorem finSubSign_mem (n₁ d₁ n₂ d₂ : ℚ) :
    finSubSign n₁ d₁ n₂ d₂ = -1 ∨ finSubSign n₁ d₁ n₂ d₂ = 0 ∨ finSubSign n₁ d₁ n₂ d₂ = 1 := by
  unfold finSubSign qsign
  split_ifs <;> omega

theorem finSubSign_neg_iff (n₁ d₁ n₂ d₂ : ℚ) (hd₁ : 0 < d₁) (hd₂ : 0 < d₂) :
    finSubSign n₁ d₁ n₂ d₂ < 0 ↔
      (n₁ : ℝ) / Real.sqrt (d₁ : ℝ) < (n₂ : ℝ) / Real.sqrt (d₂ : ℝ) := by
  have hp := finSubSign_pos_iff n₁ d₁ n₂ d₂ hd₁ hd₂
  have hz := finSubSign_zero_iff n₁ d₁ n₂ d₂ hd₁ hd₂
  constructor
  · intro h
    have h1 : ¬ (n₂ : ℝ) / Real.sqrt (d₂ : ℝ) < (n₁ : ℝ) / Real.sqrt (d₁ : ℝ) := by
      intro hlt
      have := hp.mpr hlt
      omega
    have h2 : (n₁ : ℝ) / Real.sqrt (d₁ : ℝ) ≠ (n₂ : ℝ) / Real.sqrt (d₂ : ℝ) := by
      intro heq
      have := hz.mpr heq
      omega
    exact lt_of_le_of_ne (le_of_not_lt h1) h2
  · intro h
    rcases finSubSign_mem n₁ d₁ n₂ d₂ with hm | hm | hm
    · omega
    · exact absurd (hz.mp hm ▸ h) (lt_irrefl _)
    · exact absurd (hp.mp (by omega)) (not_lt.mpr (le_of_lt h))

/-! ## Correctness of the sort model -/

theorem mem_insertCmp (lt : α → α → Bool) (x : α) (l : List α) (y : α) :
    y ∈ insertCmp lt x l ↔ y = x ∨ y ∈ l := by
  induction l with
  | nil => simp [insertCmp]
  | cons z zs ih =>
    by_cases h : lt x z
    · simp only [insertCmp, h, if_true, List.mem_cons]
      try tauto
    · simp only [insertCmp, h, Bool.false_eq_true, if_false, List.mem_cons, ih]
      try tauto

theorem length_insertCmp (lt : α → α → Bool) (x : α) (l : List α) :
    (insertCmp lt x l).length = l.length + 1 := by
  induction l with
  | nil => rfl
  | cons z zs ih =>
    by_cases h : lt x z
    · simp [insertCmp, h]
    · simp [insertCmp, h, ih]

theorem perm_insertCmp (lt : α → α → Bool) (x : α) (l : List α) :
    (insertCmp lt x l).Perm (x :: l) := by
  induction l with
  | nil => rfl
  | cons z zs ih =>
    by_cases h : lt x z
    · simp [insertCmp, h]
    · simp only [insertCmp, h, Bool.false_eq_true, if_false]
      exact ((ih.cons z).trans (List.Perm.swap x z zs))

theorem perm_jsSortStable (lt : α → α → Bool) (l : List α) :
    (jsSortStable lt l).Perm l := by
  suffices h : ∀ (acc : List α), (l.foldl (fun acc x => insertCmp lt x acc) acc).Perm
      (l.reverse ++ acc) by
    have := h []
    simpa [jsSortStable] using this.trans (by simp)
  induction l with
  | nil => intro acc; simp
  | cons x xs ih =>
    intro acc
    simp only [List.foldl_cons, List.reverse_cons, List.append_assoc, List.singleton_append]
    exact (ih (insertCmp lt x acc)).trans
      (List.Perm.append_left xs.reverse ((perm_insertCmp lt x acc)))

theorem length_jsSortStable (lt : α → α → Bool) (l : List α) :
    (jsSortStable lt l).length = l.length :=
  (perm_jsSortStable lt l).length_eq

theorem scoredLtB_iff (a b : ScoredChunk) (ha : a.similarity.IsValid)
    (hb : b.similarity.IsValid) :
    scoredLtB a b = true ↔ b.similarity.toReal < a.similarity.toReal := by
  cases hA : a.similarity with
  | nan => rw [hA] at ha; exact ha.elim
  | fin na da =>
    cases hB : b.similarity with
    | nan => rw [hB] at hb; exact hb.elim
    | fin nb db =>
      rw [hA] at ha
      rw [hB] at hb
      simp only [scoredLtB, hA, hB, comparatorSign, decide_eq_true_eq, JsVal.toReal]
      exact finSubSign_neg_iff nb db na da hb ha

/-- The sort key comparison lifted to index-tagged chunks (the index plays no
role in the comparator, exactly as in the JS sort). -/
def enumLtB (x y : Nat × ScoredChunk) : Bool := scoredLtB x.2 y.2

/-- The intended order of the sorted, index-tagged score list: strictly
greater real similarity first, ties broken by ascending original position —
i.e. "descending similarity, stable". -/
def LexAfter (x y : Nat × ScoredChunk) : Prop :=
  y.2.similarity.toReal < x.2.similarity.toReal ∨
    (x.2.similarity.toReal = y.2.similarity.toReal ∧ x.1 < y.1)

theorem chain'_insertCmp (x : Nat × ScoredChunk) (l : List (Nat × ScoredChunk))
    (hx : x.2.similarity.IsValid) (hl : ∀ p ∈ l, p.2.similarity.IsValid)
    (hidx : ∀ p ∈ l, p.1 < x.1) (hs : List.Chain' LexAfter l) :
    List.Chain' LexAfter (insertCmp enumLtB x l) := by
  induction l with
  | nil => simp [insertCmp]
  | cons y ys ih =>
    have hy : y.2.similarity.IsValid := hl y (List.mem_cons_self y ys)
    by_cases h : enumLtB x y
    · simp only [insertCmp, h, if_true]
      exact List.chain'_cons.mpr ⟨Or.inl ((scoredLtB_iff x.2 y.2 hx hy).mp h), hs⟩
    · simp only [insertCmp, h, Bool.false_eq_true, if_false]
      have hyx : LexAfter y x := by
        have hnot : ¬ y.2.similarity.toReal < x.2.similarity.toReal := by
          intro hlt
          exact h ((scoredLtB_iff x.2 y.2 hx hy).mpr hlt)
        rcases lt_or_eq_of_le (le_of_not_lt hnot) with hlt | heq
        · exact Or.inl hlt
        · exact Or.inr ⟨heq.symm, hidx y (List.mem_cons_self y ys)⟩
      refine List.chain'_cons'.mpr ⟨?_, ih (fun p hp => hl p (List.mem_cons_of_mem y hp))
        (fun p hp => hidx p (List.mem_cons_of_mem y hp)) hs.tail⟩
      intro z hz
      cases ys with
      | nil =>
        simp only [insertCmp, List.head?_cons, Option.mem_def, Option.some.injEq] at hz
        rw [← hz]
        exact hyx
      | cons w ws =>
        by_cases h2 : enumLtB x w
        · simp only [insertCmp, h2, if_true, List.head?_cons, Option.mem_def,
            Option.some.injEq] at hz
          rw [← hz]
          exact hyx
        · simp only [insertCmp, h2, Bool.false_eq_true, if_false, List.head?_cons,
            Option.mem_def, Option.some.injEq] at hz
          rw [← hz]
          exact (List.chain'_cons.mp hs).1

theorem chain'_foldl_insert (l : List (Nat × ScoredChunk)) :
    ∀ acc : List (Nat × ScoredChunk),
      (∀ p ∈ acc, p.2.similarity.IsValid) → (∀ p ∈ l, p.2.similarity.IsValid) →
      List.Chain' LexAfter acc →
      (∀ p ∈ acc, ∀ q ∈ l, p.1 < q.1) →
      List.Pairwise (fun p q => p.1 < q.1) l →
      List.Chain' LexAfter (l.foldl (fun acc x => insertCmp enumLtB x acc) acc) := by
  induction l with
  | nil =>
    intro acc _ _ hchain _ _
    exact hchain
  | cons x xs ih =>
    intro acc hacc hl hchain hcross hpw
    simp only [List.foldl_cons]
    apply ih
    · intro p hp
      rcases (mem_insertCmp _ x acc p).mp hp with rfl | hmem
      · exact hl p (List.mem_cons_self p xs)
      · exact hacc p hmem
    · intro p hp
      exact hl p (List.mem_cons_of_mem x hp)
    · exact chain'_insertCmp x acc (hl x (List.mem_cons_self x xs)) hacc
        (fun p hp => hcross p hp x (List.mem_cons_self x xs)) hchain
    · intro p hp q hq
      rcases (mem_insertCmp _ x acc p).mp hp with rfl | hmem
      · exact (List.pairwise_cons.mp hpw).1 q hq
      · exact hcross p hmem q (List.mem_cons_of_mem x hq)
    · exact (List.pairwise_cons.mp hpw).2

theorem chain'_jsSortStable (l : List (Nat × ScoredChunk))
    (hv : ∀ p ∈ l, p.2.similarity.IsValid)
    (hpw : List.Pairwise (fun p q => p.1 < q.1) l) :
    List.Chain' LexAfter (jsSortStable enumLtB l) :=
  chain'_foldl_insert l [] (by simp) hv List.chain'_nil (by simp) hpw

theorem map_snd_insertCmp (x : Nat × ScoredChunk) (l : List (Nat × ScoredChunk)) :
    (insertCmp enumLtB x l).map Prod.snd = insertCmp scoredLtB x.2 (l.map Prod.snd) := by
  induction l with
  | nil => rfl
  | cons y ys ih =>
    cases h : scoredLtB x.2 y.2 with
    | true =>
      have h' : enumLtB x y = true := h
      simp [insertCmp, h, h']
    | false =>
      have h' : enumLtB x y = false := h
      simp [insertCmp, h, h', ih]

theorem map_snd_jsSortStable (l : List (Nat × ScoredChunk)) :
    (jsSortStable enumLtB l).map Prod.snd = jsSortStable scoredLtB (l.map Prod.snd) := by
  suffices h : ∀ acc, (List.foldl (fun acc x => insertCmp enumLtB x acc) acc l).map Prod.snd =
      List.foldl (fun acc x => insertCmp scoredLtB x acc) (acc.map Prod.snd) (l.map Prod.snd) by
    exact h []
  induction l with
  | nil => intro acc; rfl
  | cons x xs ih =>
    intro acc
    simp only [List.foldl_cons, List.map_cons]
    rw [ih (insertCmp enumLtB x acc), map_snd_insertCmp]

theorem le_fst_of_mem_enumFrom (l : List α) :
    ∀ (k : Nat) (p : Nat × α), p ∈ l.enumFrom k → k ≤ p.1 := by
  induction l with
  | nil =>
    intro k p hp
    simp [List.enumFrom] at hp
  | cons x xs ih =>
    intro k p hp
    simp only [List.enumFrom, List.mem_cons] at hp
    rcases hp with rfl | hp
    · exact le_refl _
    · exact le_trans (Nat.le_succ k) (ih (k + 1) p hp)

theorem pairwise_fst_enumFrom (l : List α) :
    ∀ k : Nat, List.Pairwise (fun p q : Nat × α => p.1 < q.1) (l.enumFrom k) := by
  induction l with
  | nil => intro k; simp [List.enumFrom]
  | cons x xs ih =>
    intro k
    simp only [List.enumFrom]
    refine List.pairwise_cons.mpr ⟨?_, ih (k + 1)⟩
    intro q hq
    exact lt_of_lt_of_le (Nat.lt_succ_self k) (le_fst_of_mem_enumFrom xs (k + 1) q hq)

theorem pairwise_fst_enum (l : List α) :
    List.Pairwise (fun p q : Nat × α => p.1 < q.1) l.enum :=
  pairwise_fst_enumFrom l 0

/-! ## Validity of computed similarities -/

theorem sumSq_nonneg (v : List ℚ) : 0 ≤ sumSq v := by
  induction v with
  | nil => simp [sumSq]
  | cons x xs ih =>
    simp only [sumSq, List.map_cons, List.sum_cons]
    have : 0 ≤ x * x := mul_self_nonneg x
    have h2 : 0 ≤ (xs.map (fun x => x * x)).sum := ih
    linarith

theorem cosineSimilarity_valid_of_ne_nan (q e : List ℚ)
    (h : cosineSimilarity q e ≠ JsVal.nan) : (cosineSimilarity q e).IsValid := by
  unfold cosineSimilarity at *
  split_ifs at * with h1 h2
  · exact absurd rfl h
  · exact absurd rfl h
  · push_neg at h2
    show 0 < sumSq q * sumSq e
    exact mul_pos (lt_of_le_of_ne (sumSq_nonneg q) (Ne.symm h2.1))
      (lt_of_le_of_ne (sumSq_nonneg e) (Ne.symm h2.2))

/-- Boolean "similarity of `x` is at least that of `y`" as the comparator
sees it (`comparatorSign x y` is the sign of `y - x`); `false` whenever a
`NaN` is involved. -/
def simGeB (x y : JsVal) : Bool :=
  match comparatorSign x y with
  | some s => decide (s ≤ 0)
  | none => false

/-- Whether a scored list is sorted by non-increasing similarity, pairwise,
in the comparator order. -/
def simsSortedDesc : List ScoredChunk → Bool
  | [] => true
  | [_] => true
  | a :: b :: r => simGeB a.similarity b.similarity && simsSortedDesc (b :: r)

/-! ## JS `toFixed(4)` on exact values -/

/-- Newton iteration worker for the integer square root (fuelled so that it
reduces in the kernel; the iteration stops as soon as it stops decreasing). -/
def natSqrtFuel : Nat → Nat → Nat → Nat
  | 0, _, x => x
  | fuel + 1, n, x =>
    let y := (x + n / x) / 2
    if y < x then natSqrtFuel fuel n y else x

/-- Integer square root (floor), by Newton iteration from `x₀ = n`. -/
def natSqrt (n : Nat) : Nat := if n ≤ 1 then n else natSqrtFuel n n n

/-- Floor of a rational number. -/
def ratFloor (q : ℚ) : ℤ := Int.fdiv q.num (q.den : ℤ)

/-- Decide `m ≤ q / √d` (equivalently `m·√d ≤ q`) for `d > 0`, by sign
analysis and cross-multiplied squares. -/
def intLeDivSqrt (m : ℤ) (q d : ℚ) : Bool :=
  if 0 ≤ m then decide (0 ≤ q) && decide ((m : ℚ) ^ 2 * d ≤ q ^ 2)
  else decide (0 ≤ q) || decide (q ^ 2 ≤ (m : ℚ) ^ 2 * d)

/-- `⌊q / √d⌋` for `d > 0`, using `⌊√x⌋ = natSqrt ⌊x⌋` on `x = q²/d` and the
exactness test for the negative branch. -/
def floorDivSqrt (q d : ℚ) : ℤ :=
  let y := q ^ 2 / d
  let s := natSqrt (Int.toNat (ratFloor y))
  if 0 ≤ q then (s : ℤ)
  else if (s : ℚ) ^ 2 = y then -(s : ℤ) else -(s : ℤ) - 1

/-- `⌊q / √d + 1/2⌋` for `d > 0`: the JS `toFixed` rounding of `q/√d`
(round to nearest, ties towards the larger integer). -/
def roundHalfDivSqrt (q d : ℚ) : ℤ :=
  let f := floorDivSqrt q d
  if intLeDivSqrt (2 * f + 1) (2 * q) d then f + 1 else f

/-- Left-pad a natural number with zeros to four digits. -/
def zeroPad4 (n : Nat) : String :=
  let s := toString n
  if s.length ≥ 4 then s else String.mk (List.replicate (4 - s.length) '0') ++ s

/-- Model of `x.toFixed(4)` on a similarity value: round the exact real
`n/√d` to four decimal places (ideal-real semantics of the JS float). -/
def jsToFixed4 : JsVal → String
  | JsVal.nan => "NaN"
  | JsVal.fin n d =>
    let m := roundHalfDivSqrt (n * 10000) d
    (if m < 0 then "-" else "") ++ toString (m.natAbs / 10000) ++ "." ++
      zeroPad4 (m.natAbs % 10000)

example : jsToFixed4 (JsVal.fin 1 1) = "1.0000" := by with_unfolding_all decide
example : jsToFixed4 (JsVal.fin 3 25) = "0.6000" := by with_unfolding_all decide
example : jsToFixed4 (JsVal.fin 1 2) = "0.7071" := by with_unfolding_all decide

/-! ## The chat request handlers (chatController.js, both variants) -/

/-- Model of `source.replace(/\.pdf$/i, "")`: strip one trailing,
case-insensitive `.pdf` extension. -/
def stripPdf (s : String) : String :=
  if s.toLower.endsWith ".pdf" then s.dropRight 4 else s

/-- Model of `String.prototype.trim` on JS strings. -/
def jsTrim (s : String) : String := String.mk (trimChars s.data)

/-- The guard `!message || message.trim().length === 0` (a missing field is
`undefined`, hence falsy; the empty string is falsy too). -/
def msgBlank : Option String → Bool
  | none => true
  | some m => m == "" || jsTrim m == ""

/-- JSON body of a chat response: either `{error: msg}` or
`{answer, sources: [{source, similarity}]}`. -/
inductive ResBody where
  | errMsg (msg : String) : ResBody
  | chatMsg (answer : String) (sources : List (String × String)) : ResBody
deriving DecidableEq, Repr

/-- An HTTP response as the handler sends it. -/
structure HttpRes where
  status : Nat
  body : ResBody
deriving DecidableEq, Repr

/-- Outcome of the generation call: a non-2xx HTTP response carrying the
upstream status and body text, a 2xx response whose JSON lacks the expected
`candidates[0].content.parts[0].text` shape, or the extracted answer text. -/
inductive GenOutcome where
  | httpError (status : Nat) (body : String) : GenOutcome
  | malformed : GenOutcome
  | ok (text : String) : GenOutcome
deriving DecidableEq, Repr

/-- Result of one run of the handler: the HTTP response sent, which external
stages were invoked, and the prompt handed to the generation service. -/
structure ChatEffects where
  res : HttpRes
  embedCalled : Bool
  retrievalCalled : Bool
  generationCalled : Bool
  promptSent : Option String
deriving DecidableEq, Repr

/-- The single user-visible message of the `catch` block. -/
def genericErrorMsg : String := "An error occurred while processing your request"

/-- Context block of the exhaustive controller:
`chunks.map((chunk, i) => `[Source i+1: source]\ncontent`).join("\n\n---\n\n")`. -/
def contextV1 (chunks : List ScoredChunk) : String :=
  String.intercalate "\n\n---\n\n"
    (chunks.enum.map (fun p =>
      "[Source " ++ toString (p.1 + 1) ++ ": " ++ p.2.source ++ "]\n" ++ p.2.content))

/-- The prompt template of the exhaustive controller (its template literal,
with `context` and `message` interpolated). -/
def promptV1 (context message : String) : String :=
  "You are a domain-specific assistant that answers questions strictly using the provided documents about Nigeria’s tax laws and reforms.\n\n" ++
  "Use the information in the context to produce a clear, logical, and well-reasoned answer. Structure your response so that it naturally:\n" ++
  "- establishes the relevant background,\n" ++
  "- explains the applicable rule, action, or provision,\n" ++
  "- and concludes with the outcome or implication,\n\n" ++
  "but do NOT label sections or mention any reasoning framework.\n\n" ++
  "Context:\n" ++ context ++ "\n\n" ++
  "User question:\n" ++ message ++ "\n\n" ++
  "Rules:\n" ++
  "- Use ONLY the information provided in the context above\n" ++
  "- Do NOT introduce outside knowledge, assumptions, or interpretations\n" ++
  "- If the context does not contain enough information, respond exactly with:\n" ++
  "  \"I don\x27t have enough information in the provided documents to answer that question.\"\n" ++
  "- When stating facts, clearly reference the relevant source document(s)\n" ++
  "- Write in professional, clear, and concise language\n" ++
  "- Do NOT mention or explain any framework or methodology used\n\n\n" ++
  "Answer:"

/-- The exhaustive-retrieval chat handler, as a pure function of the request
message and of the outcomes of the three external calls (embedding service,
chunk store scan, generation service). -/
def chatV1 (message : Option String) (embedOutcome : Except Unit (List ℚ))
    (storeOutcome : Except Unit (List StoredChunk))
    (gen : String → GenOutcome) : ChatEffects :=
  if msgBlank message then
    ⟨⟨400, ResBody.errMsg "Message is required"⟩, false, false, false, none⟩
  else
    match embedOutcome with
    | Except.error _ => ⟨⟨500, ResBody.errMsg genericErrorMsg⟩, true, false, false, none⟩
    | Except.ok qe =>
      match storeOutcome with
      | Except.error _ => ⟨⟨500, ResBody.errMsg genericErrorMsg⟩, true, true, false, none⟩
      | Except.ok chunks =>
        let rel := findRelevantChunks qe 5 chunks
        let prompt := promptV1 (contextV1 rel) (message.getD "")
        match gen prompt with
        | GenOutcome.httpError _ _ =>
          ⟨⟨500, ResBody.errMsg genericErrorMsg⟩, true, true, true, some prompt⟩
        | GenOutcome.malformed =>
          ⟨⟨500, ResBody.errMsg genericErrorMsg⟩, true, true, true, some prompt⟩
        | GenOutcome.ok answer =>
          ⟨⟨200, ResBody.chatMsg answer
              (rel.map (fun c => (c.source, jsToFixed4 c.similarity)))⟩,
            true, true, true, some prompt⟩

/-- A `$vectorSearch` result row (`content`, `source`, `score`), as the
indexed controller receives it from the store. -/
structure VSResult where
  content : String
  source : String
  score : JsVal
deriving DecidableEq, Repr

/-- A retrieved chunk of the indexed controller, tagged with its citation id
(`SRC-<rank>`, 1-based). -/
structure RetChunk where
  id : String
  content : String
  source : String
  similarity : JsVal
deriving DecidableEq, Repr

/-- `results.map((chunk, i) => ({id: `SRC-i+1`, ...}))` of the indexed
`findRelevantChunks`. -/
def tagResults (rs : List VSResult) : List RetChunk :=
  rs.enum.map (fun p =>
    ⟨"SRC-" ++ toString (p.1 + 1), p.2.content, p.2.source, p.2.score⟩)

/-- The citation-id-to-clean-source-name mapping (`sourceMap`), in insertion
order of its keys `SRC-1, SRC-2, …`. -/
def sourceMapV2 (chunks : List RetChunk) : List (String × String) :=
  chunks.enum.map (fun p => ("SRC-" ++ toString (p.1 + 1), stripPdf p.2.source))

/-- `Object.values(sourceMap)` in insertion order: the source names the
prompt enumerates. -/
def promptSourceNames (chunks : List RetChunk) : List String :=
  (sourceMapV2 chunks).map Prod.snd

/-- The citation list line of the indexed controller prompt:
`- The source names available are: ${Object.values(sourceMap).map(s => `"s"`).join(", ")}`. -/
def citationLine (names : List String) : String :=
  "- The source names available are: " ++
    String.intercalate ", " (names.map (fun s => "\"" ++ s ++ "\""))

/-- Context block of the indexed controller. -/
def contextV2 (chunks : List RetChunk) : String :=
  String.intercalate "\n\n---\n\n"
    (chunks.enum.map (fun p =>
      "\n[SRC-" ++ toString (p.1 + 1) ++ "]\nSource: " ++ stripPdf p.2.source ++
        "\nContent:\n" ++ p.2.content ++ "\n"))

/-- The part of the indexed controller prompt template before the
citation list (role statement, context, question, rules). -/
def promptV2Pre (context message : String) : String :=
  "You are a domain-specific assistant that answers questions strictly using the provided documents about Nigeria’s tax laws and reforms.\n\n" ++
  "Your goal is to produce a thorough, well-reasoned, and well-structured answer that fully explains the topic using only the provided context.\n\n" ++
  "Structure your response so that it naturally:\n" ++
  "- introduces the relevant background,\n" ++
  "- explains the applicable provisions, rules, or changes in detail,\n" ++
  "- and clearly outlines the implications or outcomes.\n\n" ++
  "Do NOT label sections or mention any reasoning framework.\n\n" ++
  "Context:\n" ++ context ++ "\n\n" ++
  "User question:\n" ++ message ++ "\n\n" ++
  "Rules:\n" ++
  "- Use ONLY the information provided in the context above\n" ++
  "- Do NOT introduce outside knowledge, assumptions, or interpretations\n" ++
  "- If the context does not contain enough information, respond exactly with:\n" ++
  "  \"I don\x27t have enough information in the provided documents to answer that question.\"\n" ++
  "- Provide a very comprehensive and very detailed answer where the context allows\n" ++
  "- Expand explanations when multiple related facts appear across different sources\n" ++
  "- Do NOT  summarize if additional explanation improves clarity\n\n" ++
  "Citations:\n"

/-- The part of the indexed controller prompt template after the
citation list (citation format, formatting and style rules). -/
def promptV2Post : String :=
  "\n- Format citations like this: [Nigeria Tax Act 2025] or [Joint Revenue Board Act]\n" ++
  "- NEVER use citation IDs like [SRC-1] or [Source 1] - always use the actual document name\n\n\n" ++
  "Formatting:\n" ++
  "- Use bullet points ONLY when listing multiple distinct items\n" ++
  "- Start bullet points with a single asterisk and space: \"* Item here\"\n" ++
  "- For emphasis, use **bold text** sparingly (only for act names or key terms)\n" ++
  "- Separate main ideas into distinct paragraphs with blank lines between them\n" ++
  "- Use tables when comparing laws, rates, thresholds, dates, or entities improves clarity\n" ++
  "- Tables must include citation IDs in the relevant cells or at the end of each row\n" ++
  "- Do not include a table unless all information in it can be clearly cited\n\n" ++
  "Style:\n" ++
  "- Write in professional, clear, and precise language\n" ++
  "- use the STAR framework but Do NOT mention or explain any methodology, framework, or internal process\n\n\n" ++
  "Answer:"

/-- The prompt template of the indexed controller, with the enumerated
citation source names interpolated via `citationLine`. -/
def promptV2 (context message : String) (names : List String) : String :=
  promptV2Pre context message ++ citationLine names ++ promptV2Post

/-- The indexed-retrieval chat handler.  The `$vectorSearch` call is an
opaque store boundary, so its outcome (a pre-ranked result list, or a store
failure) is a parameter. -/
def chatV2 (message : Option String) (embedOutcome : Except Unit (List ℚ))
    (searchOutcome : Except Unit (List VSResult))
    (gen : String → GenOutcome) : ChatEffects :=
  if msgBlank message then
    ⟨⟨400, ResBody.errMsg "Message is required"⟩, false, false, false, none⟩
  else
    match embedOutcome with
    | Except.error _ => ⟨⟨500, ResBody.errMsg genericErrorMsg⟩, true, false, false, none⟩
    | Except.ok _ =>
      match searchOutcome with
      | Except.error _ => ⟨⟨500, ResBody.errMsg genericErrorMsg⟩, true, true, false, none⟩
      | Except.ok results =>
        let rel := tagResults results
        let prompt := promptV2 (contextV2 rel) (message.getD "") (promptSourceNames rel)
        match gen prompt with
        | GenOutcome.httpError _ _ =>
          ⟨⟨500, ResBody.errMsg genericErrorMsg⟩, true, true, true, some prompt⟩
        | GenOutcome.malformed =>
          ⟨⟨500, ResBody.errMsg genericErrorMsg⟩, true, true, true, some prompt⟩
        | GenOutcome.ok answer =>
          ⟨⟨200, ResBody.chatMsg answer
              (rel.map (fun c => (stripPdf c.source, jsToFixed4 c.similarity)))⟩,
            true, true, true, some prompt⟩

/-! ## Ingestion (setupDocuments.js) -/

/-- A persisted `DocumentChunk` record as ingestion writes it. -/
structure StoreRecord where
  content : List Char
  embedding : List ℚ
  source : String
  chunkIndex : Nat
deriving DecidableEq, Repr

/-- The chunk loop of `processPDF`: embed each chunk in order and append the
record to the store; on an embedding failure the surrounding `catch` logs
and returns, keeping everything inserted so far and abandoning the rest. -/
def processChunks (embed : List Char → Except Unit (List ℚ)) (fileName : String) :
    List (List Char) → Nat → List StoreRecord → List StoreRecord
  | [], _, store => store
  | c :: cs, i, store =>
    match embed c with
    | Except.error _ => store
    | Except.ok v => processChunks embed fileName cs (i + 1) (store ++ [⟨c, v, fileName, i⟩])

/-- The records the chunk loop appends: one per chunk up to (excluding) the
first chunk whose embedding call fails. -/
def expectedRecords (embed : List Char → Except Unit (List ℚ)) (fileName : String) :
    List (List Char) → Nat → List StoreRecord
  | [], _ => []
  | c :: cs, i =>
    match embed c with
    | Except.error _ => []
    | Except.ok v => ⟨c, v, fileName, i⟩ :: expectedRecords embed fileName cs (i + 1)

/-- Model of `processPDF(filePath)`: a document is its file name together
with its extracted text (the PDF extractor is an external boundary; an
extraction failure surfaces as empty text).  Empty text and an empty chunk
list are per-document skips. -/
def processPDF (embed : List Char → Except Unit (List ℚ)) (doc : String × List Char)
    (store : List StoreRecord) : List StoreRecord :=
  if doc.2.length = 0 then store
  else
    let chunks := splitIntoChunks doc.2 (500 : ℕ+)
    if chunks.length = 0 then store
    else processChunks embed doc.1 chunks 0 store

/-- The per-document loop of `main`: documents processed one at a time, a
document failure never aborts the batch. -/
def ingestDocs (embed : List Char → Except Unit (List ℚ))
    (docs : List (String × List Char)) (store : List StoreRecord) : List StoreRecord :=
  docs.foldl (fun st d => processPDF embed d st) store

/-- `await DocumentChunk.deleteMany({})`: ingestion clears the whole store
before repopulating. -/
def clearStore (_store : List StoreRecord) : List StoreRecord := []

/-- Model of `main()`: clear the store, then ingest every document. -/
def runIngestion (embed : List Char → Except Unit (List ℚ))
    (docs : List (String × List Char)) (store : List StoreRecord) : List StoreRecord :=
  ingestDocs embed docs (clearStore store)

/-! ## Properties of the chunker -/

theorem joinWords_cons_cons (w w' : List Char) (ws : List (List Char)) :
    joinWords (w :: w' :: ws) = w ++ ' ' :: joinWords (w' :: ws) := rfl

theorem takeWhile_all_eq (p : Char → Bool) (l : List Char) (h : ∀ x ∈ l, p x = true) :
    l.takeWhile p = l := by
  induction l with
  | nil => rfl
  | cons c cs ih =>
    simp only [List.takeWhile, h c (List.mem_cons_self c cs)]
    exact congrArg (c :: ·) (ih (fun x hx => h x (List.mem_cons_of_mem c hx)))

theorem dropWhile_all_eq (p : Char → Bool) (l : List Char) (h : ∀ x ∈ l, p x = true) :
    l.dropWhile p = [] := by
  induction l with
  | nil => rfl
  | cons c cs ih =>
    simp only [List.dropWhile, h c (List.mem_cons_self c cs)]
    exact ih (fun x hx => h x (List.mem_cons_of_mem c hx))

theorem takeWhile_append_of_all (p : Char → Bool) (xs ys : List Char)
    (h : ∀ x ∈ xs, p x = true) : (xs ++ ys).takeWhile p = xs ++ ys.takeWhile p := by
  induction xs with
  | nil => rfl
  | cons c cs ih =>
    simp only [List.cons_append, List.takeWhile, h c (List.mem_cons_self c cs)]
    exact congrArg (c :: ·) (ih (fun x hx => h x (List.mem_cons_of_mem c hx)))

theorem dropWhile_append_of_all (p : Char → Bool) (xs ys : List Char)
    (h : ∀ x ∈ xs, p x = true) : (xs ++ ys).dropWhile p = ys.dropWhile p := by
  induction xs with
  | nil => rfl
  | cons c cs ih =>
    simp only [List.cons_append, List.dropWhile, h c (List.mem_cons_self c cs)]
    exact ih (fun x hx => h x (List.mem_cons_of_mem c hx))

theorem wordsOf_sound : ∀ (n : Nat) (l : List Char), l.length ≤ n →
    ∀ w ∈ wordsOf l, w ≠ [] ∧ ∀ c ∈ w, isWsChar c = false := by
  intro n
  induction n with
  | zero =>
    intro l hl w hw
    have : l = [] := List.length_eq_zero.mp (Nat.le_zero.mp hl)
    subst this
    simp at hw
  | succ n ih =>
    intro l hl w hw
    cases l with
    | nil => simp at hw
    | cons c cs =>
      simp only [List.length_cons, Nat.succ_le_succ_iff] at hl
      rw [wordsOf_cons] at hw
      by_cases hc : isWsChar c
      · rw [if_pos hc] at hw
        exact ih cs hl w hw
      · rw [if_neg hc] at hw
        rcases List.mem_cons.mp hw with rfl | hmem
        · refine ⟨List.cons_ne_nil _ _, ?_⟩
          intro x hx
          rcases List.mem_cons.mp hx with rfl | hxt
          · exact Bool.eq_false_iff.mpr hc
          · have := List.mem_takeWhile_imp hxt
            simpa using this
        · exact ih _ (le_trans (length_dropWhile_le' _ cs) hl) w hmem

theorem mem_wordsOf_sound (l : List Char) (w : List Char) (hw : w ∈ wordsOf l) :
    w ≠ [] ∧ ∀ c ∈ w, isWsChar c = false :=
  wordsOf_sound l.length l (le_refl _) w hw

theorem wordsOf_single (w : List Char) (hne : w ≠ [])
    (hws : ∀ c ∈ w, isWsChar c = false) : wordsOf w = [w] := by
  cases w with
  | nil => exact absurd rfl hne
  | cons c rest =>
    rw [wordsOf_cons, if_neg (by simp [hws c (List.mem_cons_self c rest)]),
      takeWhile_all_eq _ rest (fun x hx => by
        simp [hws x (List.mem_cons_of_mem c hx)]),
      dropWhile_all_eq _ rest (fun x hx => by
        simp [hws x (List.mem_cons_of_mem c hx)])]
    rfl

theorem wordsOf_joinWords : ∀ (g : List (List Char)),
    (∀ w ∈ g, w ≠ [] ∧ ∀ c ∈ w, isWsChar c = false) → wordsOf (joinWords g) = g := by
  intro g
  induction g with
  | nil => intro _; rfl
  | cons w ws ih =>
    intro h
    have hw := h w (List.mem_cons_self w ws)
    cases ws with
    | nil => exact wordsOf_single w hw.1 hw.2
    | cons w' ws' =>
      rw [joinWords_cons_cons]
      cases hwc : w with
      | nil => exact absurd hwc hw.1
      | cons c rest =>
        have hcw : isWsChar c = false := hw.2 c (hwc ▸ List.mem_cons_self c rest)
        have hrest : ∀ x ∈ rest, (fun x => !isWsChar x) x = true := fun x hx => by
          simp [hw.2 x (hwc ▸ List.mem_cons_of_mem c hx)]
        rw [List.cons_append, wordsOf_cons, if_neg (by simp [hcw])]
        rw [takeWhile_append_of_all _ rest _ hrest, dropWhile_append_of_all _ rest _ hrest]
        have hsp : (' ' :: joinWords (w' :: ws')).takeWhile (fun x => !isWsChar x) = [] := by
          simp [List.takeWhile, isWsChar]
        have hsp2 : (' ' :: joinWords (w' :: ws')).dropWhile (fun x => !isWsChar x) =
            ' ' :: joinWords (w' :: ws') := by
          simp [List.dropWhile, isWsChar]
        rw [hsp, hsp2, List.append_nil]
        have : wordsOf (' ' :: joinWords (w' :: ws')) = wordsOf (joinWords (w' :: ws')) := by
          rw [wordsOf_cons, if_pos (by simp [isWsChar])]
        rw [this, ih (fun x hx => h x (List.mem_cons_of_mem w hx))]

theorem chunkGroups_join (size : ℕ+) : ∀ (n : Nat) (ws : List (List Char)),
    ws.length ≤ n → (chunkGroups size ws).flatten = ws := by
  intro n
  induction n with
  | zero =>
    intro ws h
    have : ws = [] := List.length_eq_zero.mp (Nat.le_zero.mp h)
    subst this
    rfl
  | succ n ih =>
    intro ws h
    cases ws with
    | nil => rfl
    | cons w rest =>
      rw [chunkGroups_cons, List.flatten_cons,
        ih ((w :: rest).drop size) (by
          simp only [List.length_drop, List.length_cons]
          have := size.pos
          simp only [List.length_cons, Nat.succ_le_succ_iff] at h
          omega)]
      exact List.take_append_drop _ _

theorem mem_chunkGroups (size : ℕ+) : ∀ (n : Nat) (ws : List (List Char))
    (g : List (List Char)), ws.length ≤ n → g ∈ chunkGroups size ws →
    g ≠ [] ∧ g.length ≤ size ∧ ∀ w ∈ g, w ∈ ws := by
  intro n
  induction n with
  | zero =>
    intro ws g h hg
    have : ws = [] := List.length_eq_zero.mp (Nat.le_zero.mp h)
    subst this
    simp at hg
  | succ n ih =>
    intro ws g h hg
    cases ws with
    | nil => simp at hg
    | cons w rest =>
      rw [chunkGroups_cons] at hg
      rcases List.mem_cons.mp hg with rfl | hmem
      · refine ⟨?_, ?_, ?_⟩
        · obtain ⟨m, hm⟩ := Nat.exists_eq_succ_of_ne_zero (Nat.pos_iff_ne_zero.mp size.pos)
          rw [hm, List.take_succ_cons]
          exact List.cons_ne_nil _ _
        · rw [List.length_take]
          exact min_le_left _ _
        · intro x hx
          exact List.take_subset _ _ hx
      · have hlen : ((w :: rest).drop (size : ℕ)).length ≤ n := by
          simp only [List.length_drop, List.length_cons]
          have := size.pos
          simp only [List.length_cons, Nat.succ_le_succ_iff] at h
          omega
        obtain ⟨h1, h2, h3⟩ := ih _ g hlen hmem
        exact ⟨h1, h2, fun x hx => List.drop_subset _ _ (h3 x hx)⟩

theorem trimChars_ne_nil (c : Char) (tail : List Char) (hc : isWsChar c = false) :
    trimChars (c :: tail) ≠ [] := by
  unfold trimChars
  intro h
  have h1 : (c :: tail).dropWhile isWsChar = c :: tail := by
    simp [List.dropWhile, hc]
  rw [h1] at h
  have h2 : ((c :: tail).reverse.dropWhile isWsChar) = [] := by
    have := congrArg List.reverse h
    simpa using this
  have h3 : ∀ x ∈ (c :: tail).reverse, isWsChar x = true := by
    intro x hx
    have := List.dropWhile_eq_nil_iff.mp h2
    exact this x hx
  have := h3 c (by simp)
  rw [hc] at this
  exact Bool.false_ne_true this

theorem joinWords_head_not_ws (g : List (List Char)) (hg : g ≠ [])
    (h : ∀ w ∈ g, w ≠ [] ∧ ∀ c ∈ w, isWsChar c = false) :
    ∃ c tail, joinWords g = c :: tail ∧ isWsChar c = false := by
  cases g with
  | nil => exact absurd rfl hg
  | cons w ws =>
    have hw := h w (List.mem_cons_self w ws)
    cases hwc : w with
    | nil => exact absurd hwc hw.1
    | cons c rest =>
      have hc : isWsChar c = false := hw.2 c (hwc ▸ List.mem_cons_self c rest)
      cases ws with
      | nil => exact ⟨c, rest, by simp [joinWords, hwc], hc⟩
      | cons w' ws' =>
        refine ⟨c, rest ++ ' ' :: joinWords (w' :: ws'), ?_, hc⟩
        rw [joinWords_cons_cons, List.cons_append]

theorem joinWords_append (g h : List (List Char)) (hg : g ≠ []) (hh : h ≠ []) :
    joinWords (g ++ h) = joinWords g ++ ' ' :: joinWords h := by
  induction g with
  | nil => exact absurd rfl hg
  | cons w ws ih =>
    cases ws with
    | nil =>
      cases h with
      | nil => exact absurd rfl hh
      | cons x t =>
        simp only [List.singleton_append, joinWords_cons_cons]
        rfl
    | cons w' ws' =>
      have hne : w' :: ws' ≠ [] := List.cons_ne_nil w' ws'
      have e1 : (w :: w' :: ws') ++ h = w :: ((w' :: ws') ++ h) := rfl
      rw [e1]
      rw [show joinWords (w :: ((w' :: ws') ++ h)) =
          w ++ ' ' :: joinWords ((w' :: ws') ++ h) from joinWords_cons_cons _ _ _]
      rw [ih hne, joinWords_cons_cons]
      simp [List.cons_append, List.append_assoc]

theorem flatten_ne_nil_of_head (g : List α) (rest : List (List α)) (hg : g ≠ []) :
    (g :: rest).flatten ≠ [] := by
  cases g with
  | nil => exact absurd rfl hg
  | cons c t => simp [List.flatten_cons]

theorem joinWords_map (GG : List (List (List Char))) (h : ∀ g ∈ GG, g ≠ []) :
    joinWords (GG.map joinWords) = joinWords GG.flatten := by
  induction GG with
  | nil => rfl
  | cons g rest ih =>
    have hgne := h g (List.mem_cons_self g rest)
    cases rest with
    | nil => simp [joinWords, List.flatten]
    | cons g' rest' =>
      have hg' := h g' (List.mem_cons_of_mem g (List.mem_cons_self g' rest'))
      have ihh := ih (fun x hx => h x (List.mem_cons_of_mem g hx))
      simp only [List.map_cons] at ihh ⊢
      rw [joinWords_cons_cons, ihh]
      have hrhs : (g :: g' :: rest').flatten = g ++ (g' :: rest').flatten := rfl
      rw [hrhs, joinWords_append g ((g' :: rest').flatten) hgne
        (flatten_ne_nil_of_head g' rest' hg')]

theorem splitIntoChunks_eq_map (text : List Char) (size : ℕ+) :
    splitIntoChunks text size = (chunkGroups size (wordsOf text)).map joinWords := by
  unfold splitIntoChunks
  apply List.filter_eq_self.mpr
  intro c hc
  obtain ⟨g, hg, rfl⟩ := List.mem_map.mp hc
  obtain ⟨hgne, -, hgmem⟩ :=
    mem_chunkGroups size (wordsOf text).length (wordsOf text) g (le_refl _) hg
  have hwords : ∀ w ∈ g, w ≠ [] ∧ ∀ ch ∈ w, isWsChar ch = false :=
    fun w hw => mem_wordsOf_sound text w (hgmem w hw)
  obtain ⟨ch, tail, hjoin, hch⟩ := joinWords_head_not_ws g hgne hwords
  rw [hjoin]
  simp only [gt_iff_lt, decide_eq_true_eq]
  exact List.length_pos.mpr (trimChars_ne_nil ch tail hch)

theorem splitIntoChunks_wordCount (text : List Char) (size : ℕ+) :
    ∀ c ∈ splitIntoChunks text size, (wordsOf c).length ≤ (size : ℕ) := by
  intro c hc
  rw [splitIntoChunks_eq_map] at hc
  obtain ⟨g, hg, rfl⟩ := List.mem_map.mp hc
  obtain ⟨hgne, hglen, hgmem⟩ :=
    mem_chunkGroups size (wordsOf text).length (wordsOf text) g (le_refl _) hg
  have hwords : ∀ w ∈ g, w ≠ [] ∧ ∀ ch ∈ w, isWsChar ch = false :=
    fun w hw => mem_wordsOf_sound text w (hgmem w hw)
  rw [wordsOf_joinWords g hwords]
  exact hglen

theorem splitIntoChunks_joined (text : List Char) (size : ℕ+) :
    joinWords (splitIntoChunks text size) = joinWords (wordsOf text) := by
  rw [splitIntoChunks_eq_map]
  have hne : ∀ g ∈ chunkGroups size (wordsOf text), g ≠ [] := fun g hg =>
    (mem_chunkGroups size (wordsOf text).length (wordsOf text) g (le_refl _) hg).1
  rw [joinWords_map _ hne, chunkGroups_join size (wordsOf text).length _ (le_refl _)]

/-! ## The claims -/

/-- C5: for all text inputs and positive chunk sizes, `splitIntoChunks(text, size)`
produces chunks each with word count at most `size`, the chunks concatenated
with single spaces equal the whitespace-normalized form of the original text
(the single-space join of its words), and chunking the empty text yields the
empty sequence. -/
theorem C5_chunker_spec (text : List Char) (size : ℕ+) :
    (∀ c ∈ splitIntoChunks text size, (wordsOf c).length ≤ (size : ℕ)) ∧
    joinWords (splitIntoChunks text size) = joinWords (wordsOf text) ∧
    splitIntoChunks [] size = [] :=
  ⟨splitIntoChunks_wordCount text size, splitIntoChunks_joined text size, rfl⟩

/-- Witness for C5 at a concrete text and chunk size. -/
theorem C5_chunker_spec_witness :
    (wordsOf ("a b".toList)).length ≤ ((⟨2, by decide⟩ : ℕ+) : ℕ) ∧
    joinWords (splitIntoChunks ("  a b  c ".toList) ⟨2, by decide⟩) =
      joinWords (wordsOf ("  a b  c ".toList)) :=
  ⟨(C5_chunker_spec ("  a b  c ".toList) ⟨2, by decide⟩).1 ("a b".toList) (by decide),
    (C5_chunker_spec ("  a b  c ".toList) ⟨2, by decide⟩).2.1⟩

/-- C9: ingestion clears the chunk store before repopulating, so its result
does not depend on the prior store contents, and running ingestion twice on
the same document set (with the same embedder) yields a store identical to
running it once. -/
theorem C9_ingestion_idempotent (embed : List Char → Except Unit (List ℚ))
    (docs : List (String × List Char)) (store store' : List StoreRecord) :
    runIngestion embed docs (runIngestion embed docs store) =
      runIngestion embed docs store ∧
    runIngestion embed docs store = runIngestion embed docs store' :=
  ⟨rfl, rfl⟩

/-- C10: a missing, empty, or whitespace-only message makes both controller
variants answer HTTP 400 with `{error: "Message is required"}` and perform no
embedding, retrieval, or generation call (the full effect record equals the
early-return record). -/
theorem C10_message_required (m : Option String)
    (h : m = none ∨ ∃ s, m = some s ∧ (s = "" ∨ jsTrim s = ""))
    (embedO : Except Unit (List ℚ)) (storeO : Except Unit (List StoredChunk))
    (searchO : Except Unit (List VSResult)) (gen : String → GenOutcome) :
    chatV1 m embedO storeO gen =
      ⟨⟨400, ResBody.errMsg "Message is required"⟩, false, false, false, none⟩ ∧
    chatV2 m embedO searchO gen =
      ⟨⟨400, ResBody.errMsg "Message is required"⟩, false, false, false, none⟩ := by
  have hb : msgBlank m = true := by
    rcases h with rfl | ⟨s, rfl, hs⟩
    · rfl
    · rcases hs with rfl | hs
      · rfl
      · simp [msgBlank, hs]
  constructor <;> simp [chatV1, chatV2, hb]

/-- Witness for C10 at a whitespace-only message. -/
theorem C10_message_required_witness :
    chatV1 (some "   ") (Except.ok []) (Except.ok []) (fun _ => GenOutcome.ok "x") =
      ⟨⟨400, ResBody.errMsg "Message is required"⟩, false, false, false, none⟩ :=
  (C10_message_required (some "   ")
    (Or.inr ⟨"   ", rfl, Or.inr (by with_unfolding_all decide)⟩)
    (Except.ok []) (Except.ok []) (Except.ok []) (fun _ => GenOutcome.ok "x")).1

/-- C1 counterexample: with query `[1,0]` and a zero-magnitude embedding
stored first, the similarity computed for that chunk is the JS `NaN`, the
comparator yields no numeric result when it reaches the sort (NaN does reach
the comparison), and the chunk sorts FIRST — not last — ahead of a chunk
with positive real similarity, contradicting the claimed `-∞`-sorts-last
treatment. -/
theorem C1_counterexample :
    findRelevantChunks [1, 0] 5 [⟨"z", "z.pdf", [0, 0]⟩, ⟨"o", "o.pdf", [3, 4]⟩] =
      [⟨"z", "z.pdf", JsVal.nan⟩, ⟨"o", "o.pdf", JsVal.fin 3 25⟩] ∧
    comparatorSign JsVal.nan (JsVal.fin 3 25) = none := by
  with_unfolding_all decide

/-- C1 (amended): when the query vector or a stored embedding has zero
magnitude, the computed cosine similarity is the JS `NaN` — not `-∞`; the
sort comparator yields no numeric value for any comparison involving it (the
stable sort treats it as a tie, leaving the chunk in its original relative
position instead of sorting it last), and the sort itself is total — no
exception; it returns a list of the same length. -/
theorem C1_amended (q emb : List ℚ) (h : sumSq q = 0 ∨ sumSq emb = 0) :
    cosineSimilarity q emb = JsVal.nan ∧
    (∀ v : JsVal, comparatorSign (cosineSimilarity q emb) v = none ∧
      comparatorSign v (cosineSimilarity q emb) = none) ∧
    (∀ l : List ScoredChunk, (jsSortStable scoredLtB l).length = l.length) := by
  have hnan : cosineSimilarity q emb = JsVal.nan := by
    unfold cosineSimilarity
    split_ifs with h1
    all_goals rfl
  refine ⟨hnan, ?_, fun l => length_jsSortStable scoredLtB l⟩
  intro v
  rw [hnan]
  refine ⟨rfl, ?_⟩
  cases v with
  | nan => rfl
  | fin n d => rfl

/-- Witness for C1 (amended) at a zero query vector. -/
theorem C1_amended_witness :
    cosineSimilarity [0, 0] [1, 2] = JsVal.nan ∧
    comparatorSign (cosineSimilarity [0, 0] [1, 2]) (JsVal.fin 1 1) = none :=
  ⟨(C1_amended [0, 0] [1, 2] (Or.inl (by with_unfolding_all decide))).1,
    ((C1_amended [0, 0] [1, 2] (Or.inl (by with_unfolding_all decide))).2.1
      (JsVal.fin 1 1)).1⟩

/-- C4 counterexample: with a zero-magnitude embedding stored before a
positive-similarity chunk, retrieval returns the NaN-similarity chunk first
and the output is not sorted by non-increasing similarity, refuting the
claim for arbitrary store contents. -/
theorem C4_counterexample :
    findRelevantChunks [1, 0] 5 [⟨"x", "x.pdf", [0, 0]⟩, ⟨"y", "y.pdf", [2, 0]⟩] =
      [⟨"x", "x.pdf", JsVal.nan⟩, ⟨"y", "y.pdf", JsVal.fin 2 4⟩] ∧
    simsSortedDesc (findRelevantChunks [1, 0] 5
      [⟨"x", "x.pdf", [0, 0]⟩, ⟨"y", "y.pdf", [2, 0]⟩]) = false := by
  with_unfolding_all decide

/-- C4 (amended): provided the query and every stored embedding yield a
non-NaN similarity, retrieval equals the index-erased stable sort of the
scored store truncated to `topK` — hence at most `topK` tuples and at most
one per stored chunk — the sorted enumeration is ordered by strictly
decreasing real similarity with ties broken by ascending original store
position (stable sort), and an empty store returns the empty sequence. -/
theorem C4_amended (q : List ℚ) (k : Nat) (store : List StoredChunk)
    (h : ∀ c ∈ store, cosineSimilarity q c.embedding ≠ JsVal.nan) :
    findRelevantChunks q k store =
      ((jsSortStable enumLtB ((store.map (scoreChunk q)).enum)).map Prod.snd).take k ∧
    List.Chain' LexAfter (jsSortStable enumLtB ((store.map (scoreChunk q)).enum)) ∧
    (findRelevantChunks q k store).length ≤ k ∧
    (findRelevantChunks q k store).length ≤ store.length ∧
    (store = [] → findRelevantChunks q k store = []) := by
  have hval : ∀ p ∈ (store.map (scoreChunk q)).enum, p.2.similarity.IsValid := by
    intro p hp
    have hsnd : p.2 ∈ ((store.map (scoreChunk q)).enum).map Prod.snd :=
      List.mem_map_of_mem Prod.snd hp
    rw [List.enum_map_snd] at hsnd
    obtain ⟨c, hc, hce⟩ := List.mem_map.mp hsnd
    have : p.2.similarity = cosineSimilarity q c.embedding := by
      rw [← hce]
      rfl
    rw [this]
    exact cosineSimilarity_valid_of_ne_nan q c.embedding (h c hc)
  constructor
  · rw [map_snd_jsSortStable, List.enum_map_snd]
    rfl
  refine ⟨chain'_jsSortStable _ hval (pairwise_fst_enum _), ?_, ?_, ?_⟩
  · calc (findRelevantChunks q k store).length
        ≤ (List.take k (jsSortStable scoredLtB (store.map (scoreChunk q)))).length :=
          le_of_eq rfl
      _ ≤ k := by
          rw [List.length_take]
          exact min_le_left _ _
  · show (List.take k (jsSortStable scoredLtB (store.map (scoreChunk q)))).length ≤ _
    rw [List.length_take, length_jsSortStable, List.length_map]
    exact min_le_right _ _
  · intro hs
    subst hs
    simp [findRelevantChunks, jsSortStable]

/-- Witness for C4 (amended) at a concrete two-chunk store. -/
theorem C4_amended_witness :
    (findRelevantChunks [1, 1] 5 [⟨"a", "a.pdf", [2, 0]⟩, ⟨"b", "b.pdf", [0, 3]⟩]).length ≤ 5 :=
  (C4_amended [1, 1] 5 [⟨"a", "a.pdf", [2, 0]⟩, ⟨"b", "b.pdf", [0, 3]⟩]
    (by with_unfolding_all decide)).2.2.1

theorem snd_map_enumFrom (l : List RetChunk) : ∀ k : Nat,
    ((l.enumFrom k).map (fun p =>
        ("SRC-" ++ toString (p.1 + 1), stripPdf p.2.source))).map Prod.snd =
      l.map (fun c => stripPdf c.source) := by
  induction l with
  | nil => intro k; rfl
  | cons c cs ih =>
    intro k
    simp only [List.enumFrom, List.map_cons]
    rw [ih (k + 1)]

theorem promptSourceNames_eq (chunks : List RetChunk) :
    promptSourceNames chunks = chunks.map (fun c => stripPdf c.source) := by
  unfold promptSourceNames sourceMapV2
  rw [show chunks.enum = chunks.enumFrom 0 from rfl]
  exact snd_map_enumFrom chunks 0

/-- C2 counterexample: two retrieved chunks from the same source document
produce a source map whose values list repeats the cleaned name; the prompt
enumerates `"TaxAct", "TaxAct"` — the listed names are NOT duplicate-free
and differ from the distinct values of the source map. -/
theorem C2_counterexample :
    promptSourceNames
        [⟨"SRC-1", "c1", "TaxAct.pdf", JsVal.fin 1 1⟩,
          ⟨"SRC-2", "c2", "TaxAct.pdf", JsVal.fin 1 2⟩] = ["TaxAct", "TaxAct"] ∧
    ¬ List.Nodup (promptSourceNames
        [⟨"SRC-1", "c1", "TaxAct.pdf", JsVal.fin 1 1⟩,
          ⟨"SRC-2", "c2", "TaxAct.pdf", JsVal.fin 1 2⟩]) ∧
    citationLine (promptSourceNames
        [⟨"SRC-1", "c1", "TaxAct.pdf", JsVal.fin 1 1⟩,
          ⟨"SRC-2", "c2", "TaxAct.pdf", JsVal.fin 1 2⟩]) =
      "- The source names available are: \"TaxAct\", \"TaxAct\"" := by
  with_unfolding_all decide

/-- C2 (amended): the citation source names enumerated in the built prompt
are the values of the source map in citation-id order — one name per
retrieved chunk, so a name repeats whenever two retrieved chunks come from
the same source document (no deduplication) — and the enumeration appears
verbatim inside the built prompt. -/
theorem C2_amended (chunks : List RetChunk) (context message : String) :
    promptSourceNames chunks = chunks.map (fun c => stripPdf c.source) ∧
    (sourceMapV2 chunks).map Prod.snd = promptSourceNames chunks ∧
    (∃ pre post : String, promptV2 context message (promptSourceNames chunks) =
      pre ++ citationLine (promptSourceNames chunks) ++ post) :=
  ⟨promptSourceNames_eq chunks, rfl,
    ⟨promptV2Pre context message, promptV2Post, rfl⟩⟩

/-- C6 counterexample: on the end-to-end scenario (one stored chunk
`{content: "VAT is 7.5%", source: "TaxAct.pdf", embedding: [1,0]}`, query
embedding `[1,0]`), the exhaustive controller — the only variant that
computes the similarity, and it computes `1.0` — answers with sources
`[{source: "TaxAct.pdf", similarity: "1.0000"}]`: the extension is not
stripped there, contradicting the claimed `[{source: "TaxAct", …}]`. -/
theorem C6_counterexample :
    (chatV1 (some "What is VAT?") (Except.ok [1, 0])
        (Except.ok [⟨"VAT is 7.5%", "TaxAct.pdf", [1, 0]⟩])
        (fun _ => GenOutcome.ok "answer")).res.body =
      ResBody.chatMsg "answer" [("TaxAct.pdf", "1.0000")] ∧
    ("TaxAct.pdf", ("1.0000" : String)) ≠ ("TaxAct", "1.0000") := by
  with_unfolding_all decide

/-- C6 (amended): on the scenario store and query the similarity computes to
the exact real `1` and renders as `"1.0000"`; the exhaustive controller
reports the source as `"TaxAct.pdf"` (extension kept), while the indexed
controller strips the extension and reports `"TaxAct"`. -/
theorem C6_amended :
    cosineSimilarity [1, 0] [1, 0] = JsVal.fin 1 1 ∧
    (JsVal.fin 1 1).toReal = 1 ∧
    jsToFixed4 (JsVal.fin 1 1) = "1.0000" ∧
    (chatV1 (some "What is VAT?") (Except.ok [1, 0])
        (Except.ok [⟨"VAT is 7.5%", "TaxAct.pdf", [1, 0]⟩])
        (fun _ => GenOutcome.ok "answer")).res.body =
      ResBody.chatMsg "answer" [("TaxAct.pdf", "1.0000")] ∧
    (chatV2 (some "What is VAT?") (Except.ok [1, 0])
        (Except.ok [⟨"VAT is 7.5%", "TaxAct.pdf", JsVal.fin 1 1⟩])
        (fun _ => GenOutcome.ok "answer")).res.body =
      ResBody.chatMsg "answer" [("TaxAct", "1.0000")] := by
  refine ⟨by with_unfolding_all decide, ?_, by with_unfolding_all decide,
    by with_unfolding_all decide, by with_unfolding_all decide⟩
  show ((1 : ℚ) : ℝ) / Real.sqrt ((1 : ℚ) : ℝ) = 1
  simp [Real.sqrt_one]

/-- C7: for every query-time pipeline failure of the indexed controller —
embedding-service failure, store failure, non-2xx generation response of any
status and body, malformed generation response — the caller receives status
500 with exactly `{error: "An error occurred while processing your request"}`,
and the full response is independent of the upstream status and body text
(no upstream detail can leak). -/
theorem C7_generic_error (m : String) (hm : msgBlank (some m) = false) :
    (∀ (searchO : Except Unit (List VSResult)) (gen : String → GenOutcome),
      (chatV2 (some m) (Except.error ()) searchO gen).res =
        ⟨500, ResBody.errMsg genericErrorMsg⟩) ∧
    (∀ (qe : List ℚ) (gen : String → GenOutcome),
      (chatV2 (some m) (Except.ok qe) (Except.error ()) gen).res =
        ⟨500, ResBody.errMsg genericErrorMsg⟩) ∧
    (∀ (qe : List ℚ) (results : List VSResult) (st : Nat) (body : String),
      (chatV2 (some m) (Except.ok qe) (Except.ok results)
          (fun _ => GenOutcome.httpError st body)).res =
        ⟨500, ResBody.errMsg genericErrorMsg⟩) ∧
    (∀ (qe : List ℚ) (results : List VSResult) (st₁ st₂ : Nat) (b₁ b₂ : String),
      chatV2 (some m) (Except.ok qe) (Except.ok results)
          (fun _ => GenOutcome.httpError st₁ b₁) =
        chatV2 (some m) (Except.ok qe) (Except.ok results)
          (fun _ => GenOutcome.httpError st₂ b₂)) ∧
    (∀ (qe : List ℚ) (results : List VSResult),
      (chatV2 (some m) (Except.ok qe) (Except.ok results)
          (fun _ => GenOutcome.malformed)).res =
        ⟨500, ResBody.errMsg genericErrorMsg⟩) := by
  refine ⟨?_, ?_, ?_, ?_, ?_⟩ <;> intros <;> simp [chatV2, hm]

/-- Witness for C7 at a failing embedding call. -/
theorem C7_generic_error_witness :
    (chatV2 (some "What is VAT?") (Except.error ()) (Except.ok [])
        (fun _ => GenOutcome.ok "x")).res =
      ⟨500, ResBody.errMsg genericErrorMsg⟩ :=
  (C7_generic_error "What is VAT?" (by with_unfolding_all decide)).1
    (Except.ok []) (fun _ => GenOutcome.ok "x")

/-- C8: with an empty store the rendered context block is the empty string
in both controller variants, the full prompt is still built from the
template with that empty context, and the generation service is invoked
rather than the query failing. -/
theorem C8_empty_store (m : String) (qe : List ℚ) (gen : String → GenOutcome)
    (hm : msgBlank (some m) = false) :
    contextV1 [] = "" ∧ contextV2 [] = "" ∧
    (chatV1 (some m) (Except.ok qe) (Except.ok []) gen).generationCalled = true ∧
    (chatV1 (some m) (Except.ok qe) (Except.ok []) gen).promptSent =
      some (promptV1 "" m) ∧
    (chatV2 (some m) (Except.ok qe) (Except.ok []) gen).generationCalled = true ∧
    (chatV2 (some m) (Except.ok qe) (Except.ok []) gen).promptSent =
      some (promptV2 "" m []) := by
  refine ⟨rfl, rfl, ?_, ?_, ?_, ?_⟩
  · simp only [chatV1, hm, Bool.false_eq_true, if_false]
    cases gen (promptV1 (contextV1 (findRelevantChunks qe 5 [])) ((some m).getD "")) <;> rfl
  · simp only [chatV1, hm, Bool.false_eq_true, if_false]
    cases gen (promptV1 (contextV1 (findRelevantChunks qe 5 [])) ((some m).getD "")) <;> rfl
  · simp only [chatV2, hm, Bool.false_eq_true, if_false]
    cases gen (promptV2 (contextV2 (tagResults [])) ((some m).getD "")
      (promptSourceNames (tagResults []))) <;> rfl
  · simp only [chatV2, hm, Bool.false_eq_true, if_false]
    cases gen (promptV2 (contextV2 (tagResults [])) ((some m).getD "")
      (promptSourceNames (tagResults []))) <;> rfl

/-- Witness for C8 at the scenario query. -/
theorem C8_empty_store_witness :
    (chatV1 (some "What is VAT?") (Except.ok [1]) (Except.ok [])
        (fun _ => GenOutcome.ok "ans")).promptSent =
      some (promptV1 "" "What is VAT?") :=
  (C8_empty_store "What is VAT?" [1] (fun _ => GenOutcome.ok "ans")
    (by with_unfolding_all decide)).2.2.2.1

/-- A 501-word document text: five hundred times `"a "` followed by `"a"`,
which `splitIntoChunks` (default 500) cuts into two chunks. -/
def c3Text : List Char := (List.replicate 500 ['a', ' ']).flatten ++ ['a']

/-- An embedder that fails exactly on the second chunk (the single word
`"a"`) and succeeds on everything else. -/
def c3Embed : List Char → Except Unit (List ℚ) :=
  fun c => if c = ['a'] then Except.error () else Except.ok [1]

set_option maxRecDepth 100000 in
/-- C3 counterexample: the 501-word document chunks into two chunks; the
embedder succeeds on chunk 0 and fails on chunk 1; after `processPDF` the
store holds exactly one record — chunk 0 of the failed document, from
source `big.pdf`, REMAINS stored: partial per-document state is committed,
contradicting the claim that no chunks of the document remain. -/
theorem C3_counterexample :
    (splitIntoChunks c3Text (500 : ℕ+)).length = 2 ∧
    (processPDF c3Embed ("big.pdf", c3Text) []).length = 1 ∧
    (processPDF c3Embed ("big.pdf", c3Text) []).map (fun r => r.source) = ["big.pdf"] := by
  with_unfolding_all decide

/-- C3 (amended): on an embedding failure at chunk `i`, the chunks embedded
before `i` REMAIN in the store — the chunk loop preserves the prior store as
a prefix and appends exactly the records of the successfully embedded
leading chunks (`expectedRecords` stops at the first failing chunk), so
partial per-document state IS committed; the rest of the document is
abandoned and the batch moves on to the next document (the per-document
fold continues unconditionally). -/
theorem C3_amended (embed : List Char → Except Unit (List ℚ)) (fileName : String)
    (cs : List (List Char)) (i : Nat) (store : List StoreRecord)
    (d : String × List Char) (ds : List (String × List Char)) :
    processChunks embed fileName cs i store =
      store ++ expectedRecords embed fileName cs i ∧
    ingestDocs embed (d :: ds) store = ingestDocs embed ds (processPDF embed d store) := by
  constructor
  · induction cs generalizing i store with
    | nil => simp [processChunks, expectedRecords]
    | cons c rest ih =>
      cases he : embed c with
      | error e => simp [processChunks, expectedRecords, he]
      | ok v =>
        simp only [processChunks, expectedRecords, he]
        rw [ih]
        simp [List.append_assoc]
  · rfl
